import Mathlib

/-!
Verification of the time-logging CLI core (src/state.rs, src/timer.rs,
src/todo.rs, src/main.rs).

The SQLite-backed store is embedded as a `Store` record holding the three
row collections (`active_timers`, `time_entries`, `todos`) as lists kept in
insertion (rowid) order, together with the next AUTOINCREMENT id of each
table.  SQL `ORDER BY` clauses are embedded as a stable insertion sort by
the ordering key.  The interactive collaborators (dialoguer `Confirm`,
`Select`, `Input`) are embedded as explicit parameters of each operation:
a `Bool` for each confirmation and a `Nat` selection index for each menu.
Wall-clock reads (`Local::now().timestamp()`) are explicit `Int`
parameters.  `std::process::exit(1)` failure paths are embedded as error
results carrying no store, since those paths perform no mutation.
-/

namespace TimeLogging

/-- `proto::Break` — `{start_ts: int64, end_ts: int64}`; `end_ts = 0` is the
"still open" sentinel. -/
structure Break where
  start_ts : Int
  end_ts : Int
  deriving Repr, DecidableEq

/-- `state::ActiveTimer` (one row of `active_timers`).  The Rust field
`id : Option<u32>` is `None` only transiently before insertion; rows always
carry an id, so the embedding stores the assigned id directly. -/
structure ActiveTimer where
  id : Nat
  name : String
  category : String
  started_at : Int
  state : String
  breaks : List Break
  todo_id : Option Nat
  deriving Repr, DecidableEq

/-- `state::TimeEntry` (one row of `time_entries`). -/
structure TimeEntry where
  id : Nat
  name : String
  category : String
  started_at : Int
  ended_at : Int
  active_secs : Int
  breaks : List Break
  todo_id : Option Nat
  deriving Repr, DecidableEq

/-- `state::TodoItem` (one row of `todos`). -/
structure TodoItem where
  id : Nat
  text : String
  done : Bool
  created_at : Int
  deriving Repr, DecidableEq

/-- The persistent store: the three tables in rowid (insertion) order plus
each table's next AUTOINCREMENT id (SQLite assigns ids from 1). -/
structure Store where
  timers : List ActiveTimer
  nextTimerId : Nat
  entries : List TimeEntry
  nextEntryId : Nat
  todos : List TodoItem
  nextTodoId : Nat
  deriving Repr, DecidableEq

/-- A fresh database: all tables empty. -/
def emptyStore : Store := ⟨[], 1, [], 1, [], 1⟩

/-! ### Stable sort by key — the embedding of SQL `ORDER BY` -/

/-- Insert `x` into `l` before the first element with a strictly larger key
(stable insertion). -/
def insertByKey {α β : Type} [LinearOrder β] (key : α → β) (x : α) : List α → List α
  | [] => [x]
  | y :: ys => if key x ≤ key y then x :: y :: ys else y :: insertByKey key x ys

/-- Stable insertion sort by `key`; rows with equal keys keep their rowid
(scan) order, as SQLite's table-scan `ORDER BY` does. -/
def sortByKey {α β : Type} [LinearOrder β] (key : α → β) : List α → List α
  | [] => []
  | x :: xs => insertByKey key x (sortByKey key xs)

/-! ### Break helpers (src/state.rs) -/

/-- `state::total_break_secs`: sum over each break of
`(end_ts if end_ts≠0 else now_ts) − start_ts`. -/
def total_break_secs (breaks : List Break) (now_ts : Int) : Int :=
  (breaks.map (fun b => (if b.end_ts = 0 then now_ts else b.end_ts) - b.start_ts)).sum

/-- The active-seconds computation `(elapsed - break_secs).max(0)` inlined at
src/timer.rs stop/status/start display sites. -/
def active_secs_calc (started_at : Int) (breaks : List Break) (now_ts : Int) : Int :=
  max ((now_ts - started_at) - total_break_secs breaks now_ts) 0

/-! ### Active-timer table operations (src/state.rs) -/

/-- `state::get_running`: `SELECT ... WHERE state = 'running'` via
`query_row`, i.e. the first matching row in scan order. -/
def get_running (s : Store) : Option ActiveTimer :=
  s.timers.find? (fun t => t.state == "running")

/-- `state::get_all_active`: `SELECT ... ORDER BY id`. -/
def get_all_active (s : Store) : List ActiveTimer :=
  sortByKey (fun t => t.id) s.timers

/-- `state::insert_active`: INSERT assigning the next AUTOINCREMENT id. -/
def insert_active (s : Store) (t : ActiveTimer) : Store :=
  { s with timers := s.timers ++ [{ t with id := s.nextTimerId }],
           nextTimerId := s.nextTimerId + 1 }

/-- `state::update_active`: `UPDATE active_timers SET ... WHERE id = ?`. -/
def update_active (s : Store) (t : ActiveTimer) : Store :=
  { s with timers := s.timers.map (fun u => if u.id = t.id then t else u) }

/-- `state::clear_active`: `DELETE FROM active_timers WHERE id = ?`. -/
def clear_active (s : Store) (id : Nat) : Store :=
  { s with timers := s.timers.filter (fun u => u.id != id) }

/-! ### Time-entry table operations (src/state.rs) -/

/-- `state::insert_entry`: append-only INSERT assigning the next id. -/
def insert_entry (s : Store) (e : TimeEntry) : Store :=
  { s with entries := s.entries ++ [{ e with id := s.nextEntryId }],
           nextEntryId := s.nextEntryId + 1 }

/-- `state::delete_entry`: `DELETE FROM time_entries WHERE id = ?`, reporting
whether a row was removed. -/
def delete_entry (s : Store) (id : Nat) : Store × Bool :=
  ({ s with entries := s.entries.filter (fun e => e.id != id) },
   s.entries.any (fun e => e.id == id))

/-- `state::query_entries`: `SELECT ... [WHERE started_at >= ?] ORDER BY
started_at`. -/
def query_entries (s : Store) (since_ts : Option Int) : List TimeEntry :=
  match since_ts with
  | some ts => sortByKey (fun e => e.started_at) (s.entries.filter (fun e => ts ≤ e.started_at))
  | none => sortByKey (fun e => e.started_at) s.entries

/-! ### Todo table operations (src/state.rs) -/

/-- `state::add_todo`: INSERT with `done = 0`. -/
def add_todo (s : Store) (text : String) (created_at : Int) : Store :=
  { s with todos := s.todos ++ [⟨s.nextTodoId, text, false, created_at⟩],
           nextTodoId := s.nextTodoId + 1 }

/-- `state::list_todos`: `SELECT ... ORDER BY id`. -/
def list_todos (s : Store) : List TodoItem :=
  sortByKey (fun t => t.id) s.todos

/-- `state::mark_todo_done`: `UPDATE todos SET done = 1 WHERE id = ?`. -/
def mark_todo_done (s : Store) (id : Nat) : Store :=
  { s with todos := s.todos.map (fun t => if t.id = id then { t with done := true } else t) }

/-! ### Timer operations (src/timer.rs) -/

/-- The pausing transition inlined in `timer::start` (lines 32–38),
`timer::pause` (lines 156–160) and `timer::switch` (lines 270–283):
state → `"paused"`, append a new open break `{start_ts: now, end_ts: 0}`. -/
def pauseTimer (t : ActiveTimer) (now : Int) : ActiveTimer :=
  { t with state := "paused", breaks := t.breaks ++ [⟨now, 0⟩] }

/-- The `last_mut` close step inlined in `timer::resume` (lines 221–225) and
`timer::switch` (lines 297–301): if the last break is open, set its
`end_ts` to `now`. -/
def closeLastBreak : List Break → Int → List Break
  | [], _ => []
  | [b], now => if b.end_ts = 0 then [{ b with end_ts := now }] else [b]
  | b :: c :: rest, now => b :: closeLastBreak (c :: rest) now

/-- The resuming transition inlined in `timer::resume` (lines 212–226) and
`timer::switch` (lines 288–302): state → `"running"`, close the last break
if open. -/
def resumeTimer (t : ActiveTimer) (now : Int) : ActiveTimer :=
  { t with state := "running", breaks := closeLastBreak t.breaks now }

/-- The second half of `timer::start` (lines 43–92): optionally link an open
todo (the `Select` index `todoSel` counts into the open-todo list; any
larger index is the trailing "None" item), default the name from the linked
todo's text, then insert a fresh `"running"` timer with empty breaks started
at `now`. -/
def startFresh (s : Store) (now : Int) (todoSel : Nat) (inputName inputCategory : String) : Store :=
  let openTodos := (list_todos s).filter (fun t => !t.done)
  let link : Option TodoItem := if openTodos.isEmpty then none else openTodos[todoSel]?
  let todoId : Option Nat := link.map (fun t => t.id)
  let name0 : String := (link.map (fun t => t.text)).getD ""
  let name : String := if name0.isEmpty then inputName else name0
  insert_active s ⟨0, name, inputCategory, now, "running", [], todoId⟩

/-- `timer::start`.  `now1` is the clock read taken while a running timer
exists (used to open its pause break); `now2` is the clock read taken after
the prompts (the new timer's `started_at`).  `confirmPause` is the user's
answer to "Pause current timer and start a new one?"; declining returns with
no mutation. -/
def start (s : Store) (now1 now2 : Int) (confirmPause : Bool) (todoSel : Nat)
    (inputName inputCategory : String) : Store :=
  match get_running s with
  | some running =>
    if confirmPause then
      startFresh (update_active s (pauseTimer running now1)) now2 todoSel inputName inputCategory
    else s
  | none => startFresh s now2 todoSel inputName inputCategory

/-- `timer::stop`: `none` embeds the `exit(1)` path ("No running timer.",
no mutation).  Otherwise freeze `active_secs`, insert the log entry, delete
the active row, and optionally (on confirmation) mark the linked todo
done. -/
def stop (s : Store) (now : Int) (confirmDone : Bool) : Option Store :=
  match get_running s with
  | none => none
  | some timer =>
    let breaks := timer.breaks
    let elapsed := now - timer.started_at
    let break_secs := total_break_secs breaks now
    let active_secs := max (elapsed - break_secs) 0
    let entry : TimeEntry :=
      ⟨0, timer.name, timer.category, timer.started_at, now, active_secs, breaks, timer.todo_id⟩
    let s1 := insert_entry s entry
    let s2 := clear_active s1 timer.id
    some (match timer.todo_id with
          | some tid => if confirmDone then mark_todo_done s2 tid else s2
          | none => s2)

/-- `timer::pause`: `none` embeds the `exit(1)` path (no running timer, no
mutation). -/
def pause (s : Store) (now : Int) : Option Store :=
  match get_running s with
  | none => none
  | some timer => some (update_active s (pauseTimer timer now))

/-- Result of `timer::resume` / `timer::switch`.  `conflict` and `notFound`
embed the `exit(1)` paths (non-zero exit, no store carried because no
mutation happened); `badSelection` embeds an out-of-range `Select` index,
which the dialoguer collaborator never produces. -/
inductive TlResult
  | ok (s : Store)
  | conflict
  | notFound
  | badSelection
  deriving Repr, DecidableEq

/-- The paused-timer list built identically in `timer::resume` (line 174)
and `timer::switch` (line 235): filter the id-ordered active set. -/
def pausedTimers (s : Store) : List ActiveTimer :=
  (get_all_active s).filter (fun t => t.state == "paused")

/-- `timer::resume`: Conflict if a running timer exists, NotFound if no
paused timer exists; with exactly one paused timer it is taken directly,
otherwise `sel` is the `Select` index into the paused list. -/
def resume (s : Store) (now : Int) (sel : Nat) : TlResult :=
  if (get_running s).isSome then .conflict
  else
    let paused := pausedTimers s
    if paused.isEmpty then .notFound
    else
      match paused[if paused.length = 1 then 0 else sel]? with
      | some t => .ok (update_active s (resumeTimer t now))
      | none => .badSelection

/-- `timer::switch`: a no-op reporting "No other timers to switch to." when
no paused timer exists (exit 0); otherwise pause the running timer if any
(no confirmation) and resume the selected paused one, all at the single
clock read `now`. -/
def switch (s : Store) (now : Int) (sel : Nat) : TlResult :=
  let all := get_all_active s
  let running := all.find? (fun t => t.state == "running")
  let paused := all.filter (fun t => t.state == "paused")
  if paused.isEmpty then .ok s
  else
    match paused[sel]? with
    | none => .badSelection
    | some selected =>
      let s1 := match running with
        | some r => update_active s (pauseTimer r now)
        | none => s
      .ok (update_active s1 (resumeTimer selected now))

/-- `timer::status` as plain data: each active timer (in id order) with its
computed active and break seconds. -/
def status (s : Store) (now : Int) : List (ActiveTimer × Int × Int) :=
  (get_all_active s).map (fun t =>
    (t, active_secs_calc t.started_at t.breaks now, total_break_secs t.breaks now))

/-- `timer::log` as plain data: the entry list for the chosen window.
`todayStart` is the local-midnight timestamp and `weekAgo` the
seven-days-ago timestamp, both computed by chrono from the wall clock. -/
def logList (s : Store) (today week : Bool) (todayStart weekAgo : Int) : List TimeEntry :=
  let since_ts : Option Int :=
    if today then some todayStart else if week then some weekAgo else none
  query_entries s since_ts

/-! ### Operation sequences over the store -/

/-- One CLI invocation of a mutating timer operation, with its clock reads
and interactive answers. -/
inductive Op
  | opStart (now1 now2 : Int) (confirmPause : Bool) (todoSel : Nat) (name category : String)
  | opStop (now : Int) (confirmDone : Bool)
  | opPause (now : Int)
  | opResume (now : Int) (sel : Nat)
  | opSwitch (now : Int) (sel : Nat)
  deriving Repr, DecidableEq

/-- Apply one operation; failure exits (`exit(1)`, declined confirmation,
"nothing to switch to") leave the store unchanged, as the source's failure
paths mutate nothing. -/
def applyOp (s : Store) : Op → Store
  | .opStart n1 n2 c ts nm cat => start s n1 n2 c ts nm cat
  | .opStop n c => (stop s n c).getD s
  | .opPause n => (pause s n).getD s
  | .opResume n sel => match resume s n sel with | .ok s1 => s1 | _ => s
  | .opSwitch n sel => match switch s n sel with | .ok s1 => s1 | _ => s

/-- Run a sequence of CLI invocations. -/
def runOps (s : Store) (ops : List Op) : Store := ops.foldl applyOp s

/-- The wall-clock reads an operation performs. -/
def opTimes : Op → List Int
  | .opStart n1 n2 _ _ _ _ => [n1, n2]
  | .opStop n _ => [n]
  | .opPause n => [n]
  | .opResume n _ => [n]
  | .opSwitch n _ => [n]

/-- All clock reads are positive: `Local::now().timestamp()` is the current
epoch time, which is strictly after 1970. -/
def OpValid (op : Op) : Prop := ∀ n ∈ opTimes op, 0 < n

/-! ### Store invariants (C1, C10) -/

/-- A running timer's breaks are all closed (no `end_ts = 0`). -/
def RunningBreaks (bs : List Break) : Prop := ∀ b ∈ bs, b.end_ts ≠ 0

/-- A paused timer's breaks: all closed except the last, which is open —
i.e. exactly one open break, and it is the last element. -/
def PausedBreaks (bs : List Break) : Prop :=
  ∃ cs b, bs = cs ++ [b] ∧ b.end_ts = 0 ∧ RunningBreaks cs

/-- Per-timer invariant linking `state` to `breaks` (C10). -/
def timerInv (t : ActiveTimer) : Prop :=
  (t.state = "running" ∨ t.state = "paused")
  ∧ (t.state = "running" → RunningBreaks t.breaks)
  ∧ (t.state = "paused" → PausedBreaks t.breaks)

/-- Number of rows with `state = "running"` in the active set. -/
def countRunning (s : Store) : Nat :=
  s.timers.countP (fun t => t.state == "running")

/-- Store invariant: row ids are distinct and below the id counter, at most
one timer is running, and every timer satisfies the per-timer invariant. -/
def StoreInv (s : Store) : Prop :=
  (s.timers.map (fun t => t.id)).Nodup
  ∧ (∀ t ∈ s.timers, t.id < s.nextTimerId)
  ∧ countRunning s ≤ 1
  ∧ ∀ t ∈ s.timers, timerInv t

/-! ### Well-formedness of break sequences (spec §3, §8)

`BreaksWithin lo bs hi` says the breaks in `bs` are start-ordered,
non-overlapping, and contained in the interval `[lo, hi]`. -/

def BreaksWithin : Int → List Break → Int → Prop
  | lo, [], hi => lo ≤ hi
  | lo, b :: rest, hi => lo ≤ b.start_ts ∧ b.start_ts ≤ b.end_ts ∧ BreaksWithin b.end_ts rest hi

instance instDecBreaksWithin (lo : Int) (bs : List Break) (hi : Int) :
    Decidable (BreaksWithin lo bs hi) :=
  match bs with
  | [] => inferInstanceAs (Decidable (lo ≤ hi))
  | b :: rest =>
    have : Decidable (BreaksWithin b.end_ts rest hi) := instDecBreaksWithin _ rest _
    inferInstanceAs (Decidable (_ ∧ _ ∧ _))

/-! ### Break serialization (spec §6)

The `breaks` blob is produced by prost from protobuf code generated into
`OUT_DIR` at build time; that generated code (and the `.proto` schema) is
not among the repository sources, so the serialization is modelled from the
spec: a compact binary (byte-list) encoding of the break sequence, each
`int64` field carried as a base-128 varint of its two's-complement 64-bit
representative, the sequence prefixed by its length. -/

/-- Modelled from the spec: the two's-complement 64-bit representative of an
`int64` value, as protobuf carries `int64` fields. -/
def toU64 (i : Int) : Nat := (i % (2 ^ 64)).toNat

/-- Modelled from the spec: read a two's-complement 64-bit representative
back as an `int64` value. -/
def ofU64 (n : Nat) : Int := if n < 2 ^ 63 then (n : Int) else (n : Int) - 2 ^ 64

/-- Base-128 little-endian varint encoding, with explicit fuel (the fuel is
only a structural-termination device; any sufficient fuel yields the same
bytes). -/
def encodeVarintFuel : Nat → Nat → List Nat
  | 0, _ => []
  | fuel + 1, n =>
    if n < 128 then [n] else (n % 128 + 128) :: encodeVarintFuel fuel (n / 128)

/-- Modelled from the spec: varint-encode a natural number (fuel `n + 1`
always suffices, since `n < 128 ^ (n + 1)`). -/
def encodeVarint (n : Nat) : List Nat := encodeVarintFuel (n + 1) n

/-- Modelled from the spec: varint decoder, returning the value and the
remaining bytes. -/
def decodeVarint : List Nat → Option (Nat × List Nat)
  | [] => none
  | b :: rest =>
    if b < 128 then some (b, rest)
    else
      match decodeVarint rest with
      | some (v, rest1) => some (b - 128 + 128 * v, rest1)
      | none => none

/-- Modelled from the spec: the body of the blob, each break's `start_ts`
then `end_ts` as varints. -/
def encodeBreakList : List Break → List Nat
  | [] => []
  | b :: rest =>
    encodeVarint (toU64 b.start_ts) ++ encodeVarint (toU64 b.end_ts) ++ encodeBreakList rest

/-- Modelled from the spec: decode `k` breaks from the byte list. -/
def decodeBreakList : Nat → List Nat → Option (List Break × List Nat)
  | 0, data => some ([], data)
  | k + 1, data =>
    match decodeVarint data with
    | none => none
    | some (sv, d1) =>
      match decodeVarint d1 with
      | none => none
      | some (ev, d2) =>
        match decodeBreakList k d2 with
        | none => none
        | some (bs, d3) => some (⟨ofU64 sv, ofU64 ev⟩ :: bs, d3)

/-- Modelled from the spec: `state::encode_breaks` — serialize a breaks
sequence as an opaque blob (length prefix, then each break's two fields). -/
def encode_breaks (bs : List Break) : List Nat :=
  encodeVarint bs.length ++ encodeBreakList bs

/-- Modelled from the spec: `state::decode_breaks` — deserialize, returning
the empty sequence on malformed input as the source's
`unwrap_or_default` does. -/
def decode_breaks (data : List Nat) : List Break :=
  match decodeVarint data with
  | some (n, rest) =>
    match decodeBreakList n rest with
    | some (bs, _) => bs
    | none => []
  | none => []

/-! ### Lemmas about the stable sort -/

theorem mem_insertByKey {α β : Type} [LinearOrder β] (key : α → β) (x a : α) (l : List α) :
    a ∈ insertByKey key x l ↔ a = x ∨ a ∈ l := by
  induction l with
  | nil => simp [insertByKey]
  | cons y ys ih =>
    simp only [insertByKey]
    split
    · simp
    · simp [ih]
      tauto

theorem insertByKey_perm {α β : Type} [LinearOrder β] (key : α → β) (x : α) (l : List α) :
    List.Perm (insertByKey key x l) (x :: l) := by
  induction l with
  | nil => simp [insertByKey]
  | cons y ys ih =>
    simp only [insertByKey]
    split
    · exact List.Perm.refl _
    · exact (ih.cons y).trans (List.Perm.swap x y ys)

theorem sortByKey_perm {α β : Type} [LinearOrder β] (key : α → β) (l : List α) :
    List.Perm (sortByKey key l) l := by
  induction l with
  | nil => simp [sortByKey]
  | cons x xs ih => exact (insertByKey_perm key x _).trans (ih.cons x)

theorem mem_sortByKey {α β : Type} [LinearOrder β] (key : α → β) (a : α) (l : List α) :
    a ∈ sortByKey key l ↔ a ∈ l :=
  (sortByKey_perm key l).mem_iff

theorem pairwise_insertByKey {α β : Type} [LinearOrder β] (key : α → β) (x : α) (l : List α)
    (h : l.Pairwise (fun a b => key a ≤ key b)) :
    (insertByKey key x l).Pairwise (fun a b => key a ≤ key b) := by
  induction l with
  | nil => simp [insertByKey]
  | cons y ys ih =>
    rcases List.pairwise_cons.mp h with ⟨hy, hys⟩
    simp only [insertByKey]
    split
    · rename_i hxy
      refine List.pairwise_cons.mpr ⟨?_, h⟩
      intro b hb
      rcases List.mem_cons.mp hb with rfl | hb
      · exact hxy
      · exact le_trans hxy (hy b hb)
    · rename_i hxy
      refine List.pairwise_cons.mpr ⟨?_, ih hys⟩
      intro b hb
      rcases (mem_insertByKey key x b ys).mp hb with rfl | hb
      · exact le_of_not_le hxy
      · exact hy b hb

theorem pairwise_sortByKey {α β : Type} [LinearOrder β] (key : α → β) (l : List α) :
    (sortByKey key l).Pairwise (fun a b => key a ≤ key b) := by
  induction l with
  | nil => simp [sortByKey]
  | cons x xs ih => exact pairwise_insertByKey key x _ ih

/-! ### Lemmas about break accounting -/

theorem total_break_secs_closed (bs : List Break) (now : Int)
    (h : ∀ b ∈ bs, b.end_ts ≠ 0) :
    total_break_secs bs now = (bs.map (fun b => b.end_ts - b.start_ts)).sum := by
  induction bs with
  | nil => rfl
  | cons b rest ih =>
    simp only [total_break_secs, List.map_cons, List.sum_cons] at ih ⊢
    rw [if_neg (h b (List.mem_cons_self b rest)), ih]
    intro b2 hb2
    exact h b2 (List.mem_cons_of_mem b hb2)

theorem breaksWithin_le (lo hi : Int) (bs : List Break) (h : BreaksWithin lo bs hi) :
    lo ≤ hi := by
  induction bs generalizing lo with
  | nil => exact h
  | cons b rest ih =>
    obtain ⟨h1, h2, h3⟩ := h
    have := ih b.end_ts h3
    omega

theorem breaksWithin_sum_bounds (lo hi : Int) (bs : List Break)
    (h : BreaksWithin lo bs hi) :
    0 ≤ (bs.map (fun b => b.end_ts - b.start_ts)).sum
    ∧ (bs.map (fun b => b.end_ts - b.start_ts)).sum ≤ hi - lo := by
  induction bs generalizing lo with
  | nil =>
    simp only [BreaksWithin] at h
    simp only [List.map_nil, List.sum_nil]
    omega
  | cons b rest ih =>
    obtain ⟨h1, h2, h3⟩ := h
    obtain ⟨ih1, ih2⟩ := ih b.end_ts h3
    simp only [List.map_cons, List.sum_cons]
    omega

/-- C2: for `0 ≤ started_at ≤ now` and a start-ordered, non-overlapping
breaks sequence contained in `[started_at, now]` with no open break, the
active seconds are non-negative and active plus break seconds exactly
partition `now - started_at`. -/
theorem active_seconds_partition (started_at now : Int) (bs : List Break)
    (h0 : 0 ≤ started_at) (h1 : started_at ≤ now)
    (hw : BreaksWithin started_at bs now)
    (hc : ∀ b ∈ bs, b.end_ts ≠ 0) :
    0 ≤ active_secs_calc started_at bs now
    ∧ active_secs_calc started_at bs now + total_break_secs bs now = now - started_at := by
  have hsum := breaksWithin_sum_bounds started_at now bs hw
  have htot := total_break_secs_closed bs now hc
  unfold active_secs_calc
  constructor
  · exact le_max_right _ 0
  · rw [htot, max_eq_left (by omega)]
    omega

/-- Witness for C2 at `started_at = 0`, `now = 200`,
`breaks = [⟨100, 150⟩]`. -/
theorem active_seconds_partition_witness :
    0 ≤ active_secs_calc 0 [⟨100, 150⟩] 200
    ∧ active_secs_calc 0 [⟨100, 150⟩] 200 + total_break_secs [⟨100, 150⟩] 200 = 200 - 0 :=
  active_seconds_partition 0 200 [⟨100, 150⟩] (by decide) (by decide) (by decide) (by decide)

/-- C4 (amended): `Status` (`get_all_active`) and the todo list
(`list_todos`) return rows ordered by ascending id, while `Log`
(`query_entries`) returns rows ordered by ascending `started_at`. -/
theorem listing_orders (s : Store) (since_ts : Option Int) :
    (get_all_active s).Pairwise (fun a b => a.id ≤ b.id)
    ∧ (list_todos s).Pairwise (fun a b => a.id ≤ b.id)
    ∧ (query_entries s since_ts).Pairwise (fun a b => a.started_at ≤ b.started_at) := by
  refine ⟨pairwise_sortByKey _ s.timers, pairwise_sortByKey _ s.todos, ?_⟩
  cases since_ts with
  | none => exact pairwise_sortByKey _ s.entries
  | some ts => exact pairwise_sortByKey _ _

/-- Counterexample to C4 as stated: after a reachable operation sequence
(two interleaved timers), the `Log` listing returns entry ids `[2, 1]`,
which is not ascending-id order — `query_entries` orders by `started_at`
(time), not by id. -/
theorem log_not_id_ordered :
    ((query_entries (runOps emptyStore
        [Op.opStart 0 0 true 0 "a" "x", .opStart 100 100 true 0 "b" "y",
         .opStop 200 false, .opResume 250 0, .opStop 300 false]) none).map
      (fun e => e.id)) = [2, 1]
    ∧ ¬ (((query_entries (runOps emptyStore
        [Op.opStart 0 0 true 0 "a" "x", .opStart 100 100 true 0 "b" "y",
         .opStop 200 false, .opResume 250 0, .opStop 300 false]) none).map
      (fun e => e.id)).Pairwise (· ≤ ·)) := by
  constructor
  · rfl
  · intro h
    have : (2 : Nat) ≤ 1 := by
      have h2 := h
      rw [show ((query_entries (runOps emptyStore
        [Op.opStart 0 0 true 0 "a" "x", .opStart 100 100 true 0 "b" "y",
         .opStop 200 false, .opResume 250 0, .opStop 300 false]) none).map
        (fun e => e.id)) = [2, 1] from rfl] at h2
      exact (List.pairwise_cons.mp h2).1 1 (List.mem_singleton.mpr rfl)
    omega

/-- C7: when a timer is running and the user declines Start's pause
confirmation, the whole Start operation aborts with the store unchanged. -/
theorem start_decline_no_mutation (s : Store) (now1 now2 : Int) (todoSel : Nat)
    (nm cat : String) (h : (get_running s).isSome) :
    start s now1 now2 false todoSel nm cat = s := by
  rcases hs : get_running s with _ | r
  · rw [hs] at h
    simp at h
  · unfold start
    rw [hs]
    rfl

/-- Witness for C7: a store with one running timer is untouched by a
declined Start. -/
theorem start_decline_no_mutation_witness :
    start ⟨[⟨1, "a", "x", 0, "running", [], none⟩], 2, [], 1, [], 1⟩ 5 6 false 0 "n" "c"
      = ⟨[⟨1, "a", "x", 0, "running", [], none⟩], 2, [], 1, [], 1⟩ :=
  start_decline_no_mutation ⟨[⟨1, "a", "x", 0, "running", [], none⟩], 2, [], 1, [], 1⟩
    5 6 0 "n" "c" (by decide)

/-- C3: stopping a running timer creates exactly one log entry, whose frozen
`active_secs` agrees with recomputation from the stored breaks at the stored
end boundary (`max 0 ((ended_at - started_at) - total_break_secs breaks
ended_at)`); and in Scenario A (start at 0, pause at 100, resume at 150,
stop at 200) the entry has `active_secs = 150` and break total `50`. -/
theorem stop_freezes_active_secs (s : Store) (now : Int) (confirmDone : Bool)
    (timer : ActiveTimer) (h : get_running s = some timer) :
    (∃ s1 e, stop s now confirmDone = some s1
      ∧ s1.entries = s.entries ++ [e]
      ∧ e.active_secs = max ((e.ended_at - e.started_at) - total_break_secs e.breaks e.ended_at) 0)
    ∧ (runOps emptyStore [Op.opStart 0 0 true 0 "coding" "work", .opPause 100,
        .opResume 150 0, .opStop 200 false]).entries.map
          (fun e => (e.active_secs, total_break_secs e.breaks 200)) = [(150, 50)] := by
  constructor
  · simp only [stop, h]
    refine ⟨_, ⟨s.nextEntryId, timer.name, timer.category, timer.started_at, now,
      max ((now - timer.started_at) - total_break_secs timer.breaks now) 0,
      timer.breaks, timer.todo_id⟩, rfl, ?_, rfl⟩
    cases timer.todo_id with
    | none => simp [insert_entry, clear_active, mark_todo_done]
    | some tid => cases confirmDone <;> simp [insert_entry, clear_active, mark_todo_done]
  · rfl

/-- Witness for C3: the Scenario A store just before the stop, with its
running timer. -/
theorem stop_freezes_active_secs_witness :
    (∃ s1 e, stop (runOps emptyStore [Op.opStart 0 0 true 0 "coding" "work", .opPause 100,
        .opResume 150 0]) 200 false = some s1
      ∧ s1.entries = (runOps emptyStore [Op.opStart 0 0 true 0 "coding" "work", .opPause 100,
        .opResume 150 0]).entries ++ [e]
      ∧ e.active_secs = max ((e.ended_at - e.started_at) - total_break_secs e.breaks e.ended_at) 0)
    ∧ (runOps emptyStore [Op.opStart 0 0 true 0 "coding" "work", .opPause 100,
        .opResume 150 0, .opStop 200 false]).entries.map
          (fun e => (e.active_secs, total_break_secs e.breaks 200)) = [(150, 50)] :=
  stop_freezes_active_secs
    (runOps emptyStore [Op.opStart 0 0 true 0 "coding" "work", .opPause 100, .opResume 150 0])
    200 false ⟨1, "coding", "work", 0, "running", [⟨100, 150⟩], none⟩ rfl

/-- C9: `log --today` (`logList` with `today = true`, `todayStart` the
local-midnight timestamp) returns exactly the stored entries with
`started_at ≥ todayStart`: it is a permutation of that filter, so an entry
is listed iff it is stored and starts at or after local midnight. -/
theorem log_today_filter (s : Store) (week : Bool) (todayStart weekAgo : Int) :
    (logList s true week todayStart weekAgo).Perm
      (s.entries.filter (fun e => todayStart ≤ e.started_at))
    ∧ ∀ e, e ∈ logList s true week todayStart weekAgo
        ↔ e ∈ s.entries ∧ todayStart ≤ e.started_at := by
  have hperm : (logList s true week todayStart weekAgo).Perm
      (s.entries.filter (fun e => todayStart ≤ e.started_at)) := by
    simp only [logList, query_entries, if_pos]
    exact sortByKey_perm _ _
  refine ⟨hperm, fun e => ?_⟩
  rw [hperm.mem_iff, List.mem_filter]
  simp

/-! ### Round-trip of the break serialization (C8) -/

theorem decodeVarint_fuel (fuel : Nat) : ∀ (n : Nat) (rest : List Nat),
    n < 128 ^ (fuel + 1) →
    decodeVarint (encodeVarintFuel (fuel + 1) n ++ rest) = some (n, rest) := by
  induction fuel with
  | zero =>
    intro n rest h
    have hn : n < 128 := by simpa using h
    simp [encodeVarintFuel, decodeVarint, hn]
  | succ fuel ih =>
    intro n rest h
    by_cases hn : n < 128
    · simp [encodeVarintFuel, decodeVarint, hn]
    · have hdiv : n / 128 < 128 ^ (fuel + 1) := by
        rw [Nat.div_lt_iff_lt_mul (by norm_num : 0 < 128)]
        calc n < 128 ^ (fuel + 1 + 1) := h
        _ = 128 ^ (fuel + 1) * 128 := by ring
      have henc : encodeVarintFuel (fuel + 1 + 1) n
          = (n % 128 + 128) :: encodeVarintFuel (fuel + 1) (n / 128) := by
        simp [encodeVarintFuel, hn]
      have hrec := ih (n / 128) rest hdiv
      rw [henc, List.cons_append]
      simp only [decodeVarint]
      rw [if_neg (by omega : ¬ n % 128 + 128 < 128), hrec]
      have harith : n % 128 + 128 - 128 + 128 * (n / 128) = n := by omega
      show some (n % 128 + 128 - 128 + 128 * (n / 128), rest) = some (n, rest)
      rw [harith]

theorem decodeVarint_encodeVarint (n : Nat) (rest : List Nat) :
    decodeVarint (encodeVarint n ++ rest) = some (n, rest) := by
  apply decodeVarint_fuel
  calc n < 128 ^ n := Nat.lt_pow_self (by norm_num) n
  _ ≤ 128 ^ (n + 1) := Nat.pow_le_pow_right (by norm_num) (Nat.le_succ n)

theorem ofU64_toU64 (i : Int) (h1 : -(2 ^ 63) ≤ i) (h2 : i < 2 ^ 63) :
    ofU64 (toU64 i) = i := by
  simp only [ofU64, toU64]
  split <;> omega

theorem decodeBreakList_encodeBreakList (bs : List Break) (rest : List Nat)
    (h : ∀ b ∈ bs, -(2 ^ 63) ≤ b.start_ts ∧ b.start_ts < 2 ^ 63
        ∧ -(2 ^ 63) ≤ b.end_ts ∧ b.end_ts < 2 ^ 63) :
    decodeBreakList bs.length (encodeBreakList bs ++ rest) = some (bs, rest) := by
  induction bs with
  | nil => simp [encodeBreakList, decodeBreakList]
  | cons b tail ih =>
    obtain ⟨hb1, hb2, hb3, hb4⟩ := h b (List.mem_cons_self b tail)
    have htail := ih (fun b2 hb2 => h b2 (List.mem_cons_of_mem b hb2))
    simp only [encodeBreakList, List.length_cons, List.append_assoc]
    simp only [decodeBreakList, decodeVarint_encodeVarint, htail]
    simp [ofU64_toU64 _ hb1 hb2, ofU64_toU64 _ hb3 hb4]

/-- C8: decoding the encoding of any breaks sequence (empty, or with an open
trailing break included) whose fields are `int64` values yields the original
sequence. -/
theorem decode_encode_breaks (bs : List Break)
    (h : ∀ b ∈ bs, -(2 ^ 63) ≤ b.start_ts ∧ b.start_ts < 2 ^ 63
        ∧ -(2 ^ 63) ≤ b.end_ts ∧ b.end_ts < 2 ^ 63) :
    decode_breaks (encode_breaks bs) = bs := by
  unfold encode_breaks decode_breaks
  have h2 := decodeBreakList_encodeBreakList bs [] h
  rw [List.append_nil] at h2
  simp only [decodeVarint_encodeVarint, h2]

/-- Witness for C8: a two-break sequence with an open trailing break
round-trips. -/
theorem decode_encode_breaks_witness :
    decode_breaks (encode_breaks [⟨100, 150⟩, ⟨200, 0⟩]) = [⟨100, 150⟩, ⟨200, 0⟩] :=
  decode_encode_breaks [⟨100, 150⟩, ⟨200, 0⟩] (by decide)


theorem mem_update_self (ts : List ActiveTimer) (t t0 : ActiveTimer)
    (hmem : t0 ∈ ts) (hid : t.id = t0.id) :
    t ∈ ts.map (fun u => if u.id = t.id then t else u) := by
  have := List.mem_map_of_mem (fun u => if u.id = t.id then t else u) hmem
  simpa [hid] using this

theorem mem_update_other (ts : List ActiveTimer) (t u0 : ActiveTimer)
    (hmem : u0 ∈ ts) (hid : u0.id ≠ t.id) :
    u0 ∈ ts.map (fun u => if u.id = t.id then t else u) := by
  have := List.mem_map_of_mem (fun u => if u.id = t.id then t else u) hmem
  simpa [hid] using this

/-- C6: Resume is a Conflict (non-zero exit, no mutation) whenever a running
timer exists, a NotFound (non-zero exit, no mutation) when no running and no
paused timer exists, and with exactly one paused timer it resumes that timer
directly: its last break is closed if open (`resumeTimer` sets
`state = "running"` and applies `closeLastBreak`). -/
theorem resume_spec (s : Store) (now : Int) (sel : Nat) :
    ((∃ t ∈ s.timers, t.state = "running") → resume s now sel = .conflict)
    ∧ ((∀ t ∈ s.timers, t.state ≠ "running") → (∀ t ∈ s.timers, t.state ≠ "paused") →
        resume s now sel = .notFound)
    ∧ (∀ t, (∀ u ∈ s.timers, u.state ≠ "running") → pausedTimers s = [t] →
        resume s now sel = .ok (update_active s (resumeTimer t now))) := by
  refine ⟨?_, ?_, ?_⟩
  · rintro ⟨t, ht, hts⟩
    have h1 : (get_running s).isSome = true := by
      unfold get_running
      rw [List.find?_isSome]
      exact ⟨t, ht, by simp [hts]⟩
    simp [resume, h1]
  · intro hnr hnp
    have h1 : get_running s = none := by
      unfold get_running
      rw [List.find?_eq_none]
      intro x hx
      simp [hnr x hx]
    have h2 : pausedTimers s = [] := by
      unfold pausedTimers
      rw [List.filter_eq_nil_iff]
      intro a ha
      have : a ∈ s.timers := (mem_sortByKey _ _ _).mp ha
      simp [hnp a this]
    simp [resume, h1, h2]
  · intro t hnr hp
    have h1 : get_running s = none := by
      unfold get_running
      rw [List.find?_eq_none]
      intro x hx
      simp [hnr x hx]
    simp [resume, h1, hp]

/-- C5: Switch with no paused timer is a non-error no-op (`.ok` with the
store unchanged); when a paused timer is selected while another is running,
the running one becomes paused with a newly appended open break starting at
the switch time (`pauseTimer`, applied without any confirmation parameter),
and the selected one becomes running with its last break, if open, closed at
the switch time (`resumeTimer`). -/
theorem switch_spec (s : Store) (now : Int) (sel : Nat) :
    ((∀ t ∈ s.timers, t.state ≠ "paused") → switch s now sel = .ok s)
    ∧ (∀ r selT, (s.timers.map (fun t => t.id)).Nodup →
        (get_all_active s).find? (fun t => t.state == "running") = some r →
        (pausedTimers s)[sel]? = some selT →
        ∃ s1, switch s now sel = .ok s1
          ∧ pauseTimer r now ∈ s1.timers
          ∧ resumeTimer selT now ∈ s1.timers) := by
  constructor
  · intro hnp
    have h2 : pausedTimers s = [] := by
      unfold pausedTimers
      rw [List.filter_eq_nil_iff]
      intro a ha
      have : a ∈ s.timers := (mem_sortByKey _ _ _).mp ha
      simp [hnp a this]
    unfold pausedTimers at h2
    simp [switch, h2]
  · intro r selT hnd hr hsel
    have hrmem : r ∈ s.timers := (mem_sortByKey _ _ _).mp (List.mem_of_find?_eq_some hr)
    have hrstate : r.state = "running" := by
      have := List.find?_some hr
      simpa using this
    have hselmem0 : selT ∈ pausedTimers s := by
      have hlt : sel < (pausedTimers s).length := by
        by_contra hge
        rw [List.getElem?_eq_none (by omega)] at hsel
        cases hsel
      rw [List.getElem?_eq_getElem hlt] at hsel
      cases hsel
      exact List.getElem_mem hlt
    have hselstate : selT.state = "paused" := by
      have := List.of_mem_filter hselmem0
      simpa using this
    have hselmem : selT ∈ s.timers :=
      (mem_sortByKey _ _ _).mp (List.mem_of_mem_filter hselmem0)
    have hne : selT.id ≠ r.id := by
      intro he
      have heq : selT = r := List.inj_on_of_nodup_map hnd hselmem hrmem he
      rw [heq, hrstate] at hselstate
      exact absurd hselstate (by decide)
    have hpne : (pausedTimers s).isEmpty = false := by
      cases hps : pausedTimers s with
      | nil => rw [hps] at hselmem0; cases hselmem0
      | cons a l => rfl
    have hred : switch s now sel
        = .ok (update_active (update_active s (pauseTimer r now)) (resumeTimer selT now)) := by
      have hpe : ((get_all_active s).filter (fun t => t.state == "paused")).isEmpty = false := hpne
      have hsel2 : ((get_all_active s).filter (fun t => t.state == "paused"))[sel]? = some selT := hsel
      simp only [switch, hr, hpe, hsel2, Bool.false_eq_true, if_false]
    refine ⟨_, hred, ?_, ?_⟩
    · simp only [update_active]
      apply mem_update_other
      · exact mem_update_self s.timers (pauseTimer r now) r hrmem rfl
      · show (pauseTimer r now).id ≠ (resumeTimer selT now).id
        simpa [pauseTimer, resumeTimer] using fun he => hne he.symm
    · simp only [update_active]
      apply mem_update_self _ _ (selT)
      · apply mem_update_other
        · exact hselmem
        · show selT.id ≠ (pauseTimer r now).id
          simpa [pauseTimer] using hne
      · rfl

/-- Witness for C6: a running-timer store conflicts, the empty store is
NotFound, and a single-paused-timer store resumes it directly. -/
theorem resume_spec_witness :
    resume ⟨[⟨1, "a", "x", 0, "running", [], none⟩], 2, [], 1, [], 1⟩ 50 0 = .conflict
    ∧ resume emptyStore 50 0 = .notFound
    ∧ resume ⟨[⟨1, "a", "x", 0, "paused", [⟨10, 0⟩], none⟩], 2, [], 1, [], 1⟩ 50 3
        = .ok (update_active ⟨[⟨1, "a", "x", 0, "paused", [⟨10, 0⟩], none⟩], 2, [], 1, [], 1⟩
            (resumeTimer ⟨1, "a", "x", 0, "paused", [⟨10, 0⟩], none⟩ 50)) :=
  ⟨(resume_spec ⟨[⟨1, "a", "x", 0, "running", [], none⟩], 2, [], 1, [], 1⟩ 50 0).1
      ⟨⟨1, "a", "x", 0, "running", [], none⟩, by decide, rfl⟩,
   (resume_spec emptyStore 50 0).2.1 (by decide) (by decide),
   (resume_spec ⟨[⟨1, "a", "x", 0, "paused", [⟨10, 0⟩], none⟩], 2, [], 1, [], 1⟩ 50 3).2.2
      ⟨1, "a", "x", 0, "paused", [⟨10, 0⟩], none⟩ (by decide) (by decide)⟩

/-- Witness for C5: a store with only a running timer is untouched; a
running+paused store switches as specified. -/
theorem switch_spec_witness :
    switch ⟨[⟨1, "a", "x", 0, "running", [], none⟩], 2, [], 1, [], 1⟩ 100 0
      = .ok ⟨[⟨1, "a", "x", 0, "running", [], none⟩], 2, [], 1, [], 1⟩
    ∧ ∃ s1, switch ⟨[⟨1, "a", "x", 0, "running", [], none⟩,
          ⟨2, "b", "y", 10, "paused", [⟨20, 0⟩], none⟩], 3, [], 1, [], 1⟩ 100 0 = .ok s1
        ∧ pauseTimer ⟨1, "a", "x", 0, "running", [], none⟩ 100 ∈ s1.timers
        ∧ resumeTimer ⟨2, "b", "y", 10, "paused", [⟨20, 0⟩], none⟩ 100 ∈ s1.timers :=
  ⟨(switch_spec ⟨[⟨1, "a", "x", 0, "running", [], none⟩], 2, [], 1, [], 1⟩ 100 0).1 (by decide),
   (switch_spec ⟨[⟨1, "a", "x", 0, "running", [], none⟩,
      ⟨2, "b", "y", 10, "paused", [⟨20, 0⟩], none⟩], 3, [], 1, [], 1⟩ 100 0).2
     ⟨1, "a", "x", 0, "running", [], none⟩
     ⟨2, "b", "y", 10, "paused", [⟨20, 0⟩], none⟩ (by decide) (by decide) (by decide)⟩


/-! ### Invariant preservation (C1, C10) -/

theorem map_update_id (ts : List ActiveTimer) (t : ActiveTimer)
    (h : ∀ u ∈ ts, u.id ≠ t.id) :
    ts.map (fun u => if u.id = t.id then t else u) = ts := by
  induction ts with
  | nil => rfl
  | cons u us ih =>
    simp only [List.map_cons]
    rw [if_neg (h u (List.mem_cons_self u us)),
      ih (fun v hv => h v (List.mem_cons_of_mem u hv))]

theorem update_split (ts : List ActiveTimer) (t t0 : ActiveTimer)
    (hmem : t0 ∈ ts) (hid : t.id = t0.id) (hnd : (ts.map (fun u => u.id)).Nodup) :
    ∃ l r, ts = l ++ t0 :: r
      ∧ ts.map (fun u => if u.id = t.id then t else u) = l ++ t :: r
      ∧ (∀ u ∈ l, u.id ≠ t0.id) ∧ (∀ u ∈ r, u.id ≠ t0.id) := by
  obtain ⟨l, r, rfl⟩ := List.append_of_mem hmem
  rw [List.map_append, List.map_cons, List.nodup_append] at hnd
  obtain ⟨h1, h2, hdisj⟩ := hnd
  rw [List.nodup_cons] at h2
  have hl : ∀ u ∈ l, u.id ≠ t0.id := by
    intro u hu he
    exact hdisj (List.mem_map_of_mem _ hu) (by simp [he])
  have hr : ∀ u ∈ r, u.id ≠ t0.id := by
    intro u hu he
    exact h2.1 (he ▸ List.mem_map_of_mem _ hu)
  refine ⟨l, r, rfl, ?_, hl, hr⟩
  rw [List.map_append, List.map_cons, if_pos hid.symm,
    map_update_id l t (fun u hu => hid ▸ hl u hu),
    map_update_id r t (fun u hu => hid ▸ hr u hu)]

theorem closeLastBreak_append (cs : List Break) (b : Break) (now : Int) :
    closeLastBreak (cs ++ [b]) now
      = cs ++ [if b.end_ts = 0 then { b with end_ts := now } else b] := by
  induction cs with
  | nil =>
    simp only [List.nil_append, closeLastBreak]
    split <;> rfl
  | cons c cs ih =>
    cases cs with
    | nil =>
      simp only [List.cons_append, List.nil_append, closeLastBreak]
      split <;> rfl
    | cons d cs2 =>
      simp only [List.cons_append] at ih ⊢
      rw [closeLastBreak, ih]

theorem timerInv_pauseTimer (t : ActiveTimer) (now : Int)
    (ht : timerInv t) (hs : t.state = "running") :
    timerInv (pauseTimer t now) := by
  obtain ⟨hstates, hrun, hpau⟩ := ht
  refine ⟨Or.inr rfl, ?_, ?_⟩
  · intro h
    exact absurd h (by simp [pauseTimer])
  · intro _
    exact ⟨t.breaks, ⟨now, 0⟩, rfl, rfl, hrun hs⟩

theorem timerInv_resumeTimer (t : ActiveTimer) (now : Int)
    (ht : timerInv t) (hs : t.state = "paused") (hn : now ≠ 0) :
    timerInv (resumeTimer t now) := by
  obtain ⟨hstates, hrun, hpau⟩ := ht
  obtain ⟨cs, b, hbs, hb0, hcs⟩ := hpau hs
  refine ⟨Or.inl rfl, ?_, ?_⟩
  · intro _
    show RunningBreaks (closeLastBreak t.breaks now)
    rw [hbs, closeLastBreak_append, if_pos hb0]
    intro b2 hb2
    rcases List.mem_append.mp hb2 with h | h
    · exact hcs b2 h
    · rw [List.mem_singleton.mp h]
      exact hn
  · intro h
    exact absurd h (by simp [resumeTimer])

theorem countRunning_zero_iff (s : Store) :
    countRunning s = 0 ↔ ∀ t ∈ s.timers, t.state ≠ "running" := by
  unfold countRunning
  rw [List.countP_eq_zero]
  constructor
  · intro h t ht
    have := h t ht
    simpa using this
  · intro h t ht
    simpa using h t ht

theorem find?_eq_of_countP_le_one {α : Type} (p : α → Bool) (l : List α)
    (hc : l.countP p ≤ 1) (t : α) (ht : t ∈ l) (hp : p t = true) :
    l.find? p = some t := by
  induction l with
  | nil => cases ht
  | cons a l ih =>
    by_cases ha : p a
    · rw [List.find?_cons_of_pos _ ha]
      rcases List.mem_cons.mp ht with rfl | htl
      · rfl
      · exfalso
        have h1 : 0 < l.countP p := List.countP_pos_iff.mpr ⟨t, htl, hp⟩
        rw [List.countP_cons_of_pos p l ha] at hc
        omega
    · rw [List.find?_cons_of_neg _ ha]
      rcases List.mem_cons.mp ht with rfl | htl
      · rw [hp] at ha
        exact absurd rfl ha
      · rw [List.countP_cons_of_neg p l ha] at hc
        exact ih hc htl

theorem timers_startFresh (s : Store) (now : Int) (ts : Nat) (nm cat : String) :
    ∃ nm2 tid, (startFresh s now ts nm cat).timers
      = s.timers ++ [⟨s.nextTimerId, nm2, cat, now, "running", [], tid⟩]
      ∧ (startFresh s now ts nm cat).nextTimerId = s.nextTimerId + 1
      ∧ (startFresh s now ts nm cat).entries = s.entries := by
  exact ⟨_, _, rfl, rfl, rfl⟩

theorem storeInv_startFresh (s : Store) (now : Int) (ts : Nat) (nm cat : String)
    (hnd : (s.timers.map (fun t => t.id)).Nodup)
    (hbound : ∀ t ∈ s.timers, t.id < s.nextTimerId)
    (hcnt : countRunning s = 0)
    (hinv : ∀ t ∈ s.timers, timerInv t) :
    StoreInv (startFresh s now ts nm cat) := by
  obtain ⟨nm2, tid, hts, hnext, -⟩ := timers_startFresh s now ts nm cat
  refine ⟨?_, ?_, ?_, ?_⟩
  · rw [hts, List.map_append, List.map_cons, List.map_nil, List.nodup_append]
    refine ⟨hnd, List.nodup_singleton _, ?_⟩
    intro a ha hb
    rcases List.mem_map.mp ha with ⟨u, hu, rfl⟩
    have := hbound u hu
    simp only [List.mem_singleton] at hb
    omega
  · rw [hts, hnext]
    intro t ht
    rcases List.mem_append.mp ht with h | h
    · have := hbound t h
      omega
    · rw [List.mem_singleton.mp h]
      show s.nextTimerId < s.nextTimerId + 1
      omega
  · show countRunning (startFresh s now ts nm cat) ≤ 1
    unfold countRunning
    rw [hts, List.countP_append]
    unfold countRunning at hcnt
    rw [hcnt]
    simp
  · rw [hts]
    intro t ht
    rcases List.mem_append.mp ht with h | h
    · exact hinv t h
    · rw [List.mem_singleton.mp h]
      refine ⟨Or.inl rfl, fun _ => ?_, fun h2 => by simp at h2⟩
      intro b hb
      cases hb

theorem storeInv_pause_update (s : Store) (r : ActiveTimer) (now : Int)
    (h : StoreInv s) (hr : get_running s = some r) :
    ((update_active s (pauseTimer r now)).timers.map (fun t => t.id)).Nodup
    ∧ (∀ t ∈ (update_active s (pauseTimer r now)).timers,
        t.id < (update_active s (pauseTimer r now)).nextTimerId)
    ∧ countRunning (update_active s (pauseTimer r now)) = 0
    ∧ ∀ t ∈ (update_active s (pauseTimer r now)).timers, timerInv t := by
  obtain ⟨hnd, hbound, hcnt, hinv⟩ := h
  have hrmem : r ∈ s.timers := List.mem_of_find?_eq_some hr
  have hrstate : r.state = "running" := by simpa using List.find?_some hr
  obtain ⟨l, r2, hts, hmap, hl, hr2⟩ :=
    update_split s.timers (pauseTimer r now) r hrmem rfl hnd
  have htimers : (update_active s (pauseTimer r now)).timers = l ++ pauseTimer r now :: r2 := by
    simpa [update_active] using hmap
  have hpr : (pauseTimer r now).id = r.id := rfl
  refine ⟨?_, ?_, ?_, ?_⟩
  · rw [htimers, List.map_append, List.map_cons, hpr]
    rw [hts, List.map_append, List.map_cons] at hnd
    exact hnd
  · rw [htimers]
    intro t ht
    show t.id < s.nextTimerId
    rcases List.mem_append.mp ht with h | h
    · exact hbound t (hts ▸ List.mem_append_left _ h)
    · rcases List.mem_cons.mp h with rfl | h
      · exact hpr ▸ hbound r hrmem
      · exact hbound t (hts ▸ List.mem_append_right _ (List.mem_cons_of_mem _ h))
  · unfold countRunning
    rw [htimers, List.countP_append, List.countP_cons_of_neg _ _ (by simp [pauseTimer])]
    unfold countRunning at hcnt
    rw [hts, List.countP_append, List.countP_cons_of_pos _ _ (by simp [hrstate])] at hcnt
    omega
  · rw [htimers]
    intro t ht
    rcases List.mem_append.mp ht with h | h
    · exact hinv t (hts ▸ List.mem_append_left _ h)
    · rcases List.mem_cons.mp h with rfl | h
      · exact timerInv_pauseTimer r now (hinv r hrmem) hrstate
      · exact hinv t (hts ▸ List.mem_append_right _ (List.mem_cons_of_mem _ h))

theorem storeInv_resume_update (s : Store) (t : ActiveTimer) (now : Int)
    (hnd : (s.timers.map (fun t => t.id)).Nodup)
    (hbound : ∀ u ∈ s.timers, u.id < s.nextTimerId)
    (hcnt : countRunning s = 0)
    (hinv : ∀ u ∈ s.timers, timerInv u)
    (htmem : t ∈ s.timers) (hstate : t.state = "paused") (hn : now ≠ 0) :
    StoreInv (update_active s (resumeTimer t now)) := by
  obtain ⟨l, r2, hts, hmap, hl, hr2⟩ :=
    update_split s.timers (resumeTimer t now) t htmem rfl hnd
  have htimers : (update_active s (resumeTimer t now)).timers = l ++ resumeTimer t now :: r2 := by
    simpa [update_active] using hmap
  have hrt : (resumeTimer t now).id = t.id := rfl
  refine ⟨?_, ?_, ?_, ?_⟩
  · rw [htimers, List.map_append, List.map_cons, hrt]
    rw [hts, List.map_append, List.map_cons] at hnd
    exact hnd
  · rw [htimers]
    intro u hu
    show u.id < s.nextTimerId
    rcases List.mem_append.mp hu with h | h
    · exact hbound u (hts ▸ List.mem_append_left _ h)
    · rcases List.mem_cons.mp h with rfl | h
      · exact hrt ▸ hbound t htmem
      · exact hbound u (hts ▸ List.mem_append_right _ (List.mem_cons_of_mem _ h))
  · unfold countRunning
    rw [htimers, List.countP_append, List.countP_cons_of_pos _ _ (by simp [resumeTimer])]
    unfold countRunning at hcnt
    rw [hts, List.countP_append, List.countP_cons] at hcnt
    omega
  · rw [htimers]
    intro u hu
    rcases List.mem_append.mp hu with h | h
    · exact hinv u (hts ▸ List.mem_append_left _ h)
    · rcases List.mem_cons.mp h with rfl | h
      · exact timerInv_resumeTimer t now (hinv t htmem) hstate hn
      · exact hinv u (hts ▸ List.mem_append_right _ (List.mem_cons_of_mem _ h))

theorem getElem?_some_mem {α : Type} (l : List α) (i : Nat) (a : α)
    (h : l[i]? = some a) : a ∈ l := by
  have hlt : i < l.length := by
    by_contra hge
    rw [List.getElem?_eq_none (by omega)] at h
    cases h
  rw [List.getElem?_eq_getElem hlt] at h
  cases h
  exact List.getElem_mem hlt

theorem storeInv_start (s : Store) (now1 now2 : Int) (c : Bool) (ts : Nat)
    (nm cat : String) (h : StoreInv s) : StoreInv (start s now1 now2 c ts nm cat) := by
  obtain ⟨hnd, hbound, hcnt, hinv⟩ := h
  unfold start
  cases hr : get_running s with
  | none =>
    exact storeInv_startFresh s now2 ts nm cat hnd hbound
      ((countRunning_zero_iff s).mpr (by
        intro t ht
        have := List.find?_eq_none.mp hr t ht
        simpa using this)) hinv
  | some r =>
    cases c with
    | false => exact ⟨hnd, hbound, hcnt, hinv⟩
    | true =>
      show StoreInv (startFresh (update_active s (pauseTimer r now1)) now2 ts nm cat)
      obtain ⟨hnd1, hbound1, hcnt1, hinv1⟩ :=
        storeInv_pause_update s r now1 ⟨hnd, hbound, hcnt, hinv⟩ hr
      exact storeInv_startFresh _ now2 ts nm cat hnd1 hbound1 hcnt1 hinv1

theorem storeInv_stop (s : Store) (now : Int) (c : Bool) (h : StoreInv s) :
    StoreInv ((stop s now c).getD s) := by
  obtain ⟨hnd, hbound, hcnt, hinv⟩ := h
  unfold stop
  cases hr : get_running s with
  | none => exact ⟨hnd, hbound, hcnt, hinv⟩
  | some timer =>
    have key : ∀ (s2 : Store), s2.timers = s.timers.filter (fun u => u.id != timer.id) →
        s2.nextTimerId = s.nextTimerId → StoreInv s2 := by
      intro s2 ht hn
      refine ⟨?_, ?_, ?_, ?_⟩
      · rw [ht]
        exact hnd.sublist (List.Sublist.map _ (List.filter_sublist _))
      · intro t hmem
        rw [ht] at hmem
        rw [hn]
        exact hbound t (List.mem_of_mem_filter hmem)
      · show s2.timers.countP _ ≤ 1
        rw [ht]
        exact le_trans (List.Sublist.countP_le _ (List.filter_sublist _)) hcnt
      · intro t hmem
        rw [ht] at hmem
        exact hinv t (List.mem_of_mem_filter hmem)
    rcases htd : timer.todo_id with _ | tid
    · exact key _ (by simp [stop, hr, htd, clear_active, insert_entry])
        (by simp [stop, hr, htd, clear_active, insert_entry])
    · cases c with
      | true =>
        exact key _ (by simp [stop, hr, htd, clear_active, insert_entry, mark_todo_done])
          (by simp [stop, hr, htd, clear_active, insert_entry, mark_todo_done])
      | false =>
        exact key _ (by simp [stop, hr, htd, clear_active, insert_entry])
          (by simp [stop, hr, htd, clear_active, insert_entry])

theorem storeInv_pause (s : Store) (now : Int) (h : StoreInv s) :
    StoreInv ((pause s now).getD s) := by
  unfold pause
  cases hr : get_running s with
  | none => exact h
  | some timer =>
    obtain ⟨a, b, c2, d⟩ := storeInv_pause_update s timer now h hr
    refine ⟨a, b, ?_, d⟩
    show countRunning (update_active s (pauseTimer timer now)) ≤ 1
    omega

theorem storeInv_resume (s : Store) (now : Int) (sel : Nat) (h : StoreInv s)
    (hn : now ≠ 0) :
    StoreInv (match resume s now sel with | .ok s1 => s1 | _ => s) := by
  obtain ⟨hnd, hbound, hcnt, hinv⟩ := h
  by_cases hr : (get_running s).isSome
  · simp only [resume, hr, if_true]
    exact ⟨hnd, hbound, hcnt, hinv⟩
  · have hb : (get_running s).isSome = false := by simpa using hr
    have hr0 : get_running s = none := by
      cases hg : get_running s
      · rfl
      · rw [hg] at hb
        cases hb
    have hcnt0 : countRunning s = 0 := by
      rw [countRunning_zero_iff]
      intro t ht
      have := List.find?_eq_none.mp hr0 t ht
      simpa using this
    by_cases hpe : (pausedTimers s).isEmpty
    · have hpe2 : (pausedTimers s).isEmpty = true := hpe
      simp only [resume, hb, hpe2]
      exact ⟨hnd, hbound, hcnt, hinv⟩
    · have hpe2 : (pausedTimers s).isEmpty = false := by simpa using hpe
      cases hsel : (pausedTimers s)[if (pausedTimers s).length = 1 then 0 else sel]? with
      | none =>
        simp only [resume, hb, hpe2, hsel]
        exact ⟨hnd, hbound, hcnt, hinv⟩
      | some t =>
        simp only [resume, hb, hpe2, hsel]
        have hselmem0 : t ∈ pausedTimers s := getElem?_some_mem _ _ _ hsel
        have hstate : t.state = "paused" := by
          have := List.of_mem_filter hselmem0
          simpa using this
        have htmem : t ∈ s.timers :=
          (mem_sortByKey _ _ _).mp (List.mem_of_mem_filter hselmem0)
        exact storeInv_resume_update s t now hnd hbound hcnt0 hinv htmem hstate hn

theorem storeInv_switch (s : Store) (now : Int) (sel : Nat) (h : StoreInv s)
    (hn : now ≠ 0) :
    StoreInv (match switch s now sel with | .ok s1 => s1 | _ => s) := by
  obtain ⟨hnd, hbound, hcnt, hinv⟩ := h
  by_cases hpe : ((get_all_active s).filter (fun t => t.state == "paused")).isEmpty
  · have hpe2 : ((get_all_active s).filter (fun t => t.state == "paused")).isEmpty = true := hpe
    simp only [switch, hpe2, if_true]
    exact ⟨hnd, hbound, hcnt, hinv⟩
  · have hpe2 : ((get_all_active s).filter (fun t => t.state == "paused")).isEmpty = false := by
      simpa using hpe
    cases hsel : ((get_all_active s).filter (fun t => t.state == "paused"))[sel]? with
    | none =>
      simp only [switch, hpe2, hsel]
      exact ⟨hnd, hbound, hcnt, hinv⟩
    | some selT =>
      have hselmem0 : selT ∈ (get_all_active s).filter (fun t => t.state == "paused") :=
        getElem?_some_mem _ _ _ hsel
      have hselstate : selT.state = "paused" := by
        have := List.of_mem_filter hselmem0
        simpa using this
      have hselmem : selT ∈ s.timers :=
        (mem_sortByKey _ _ _).mp (List.mem_of_mem_filter hselmem0)
      cases hrun : (get_all_active s).find? (fun t => t.state == "running") with
      | none =>
        simp only [switch, hpe2, hsel, hrun]
        have hcnt0 : countRunning s = 0 := by
          rw [countRunning_zero_iff]
          intro t ht
          have ht2 : t ∈ get_all_active s := (mem_sortByKey _ _ _).mpr ht
          have := List.find?_eq_none.mp hrun t ht2
          simpa using this
        exact storeInv_resume_update s selT now hnd hbound hcnt0 hinv hselmem hselstate hn
      | some r =>
        simp only [switch, hpe2, hsel, hrun]
        have hrmem : r ∈ s.timers := (mem_sortByKey _ _ _).mp (List.mem_of_find?_eq_some hrun)
        have hrstate : r.state = "running" := by simpa using List.find?_some hrun
        have hgr : get_running s = some r :=
          find?_eq_of_countP_le_one _ s.timers hcnt r hrmem (by simp [hrstate])
        obtain ⟨hnd1, hbound1, hcnt1, hinv1⟩ :=
          storeInv_pause_update s r now ⟨hnd, hbound, hcnt, hinv⟩ hgr
        have hne : selT.id ≠ r.id := by
          intro he
          have heq := List.inj_on_of_nodup_map hnd hselmem hrmem he
          rw [heq, hrstate] at hselstate
          exact absurd hselstate (by decide)
        have hselmem1 : selT ∈ (update_active s (pauseTimer r now)).timers := by
          simp only [update_active]
          exact mem_update_other s.timers (pauseTimer r now) selT hselmem
            (by simpa [pauseTimer] using hne)
        exact storeInv_resume_update (update_active s (pauseTimer r now)) selT now
          hnd1 hbound1 hcnt1 hinv1 hselmem1 hselstate hn

theorem storeInv_applyOp (s : Store) (op : Op) (h : StoreInv s) (hv : OpValid op) :
    StoreInv (applyOp s op) := by
  cases op with
  | opStart n1 n2 c ts nm cat => exact storeInv_start s n1 n2 c ts nm cat h
  | opStop n c => exact storeInv_stop s n c h
  | opPause n => exact storeInv_pause s n h
  | opResume n sel =>
    have hn : n ≠ 0 := by
      have := hv n (by simp [opTimes])
      omega
    exact storeInv_resume s n sel h hn
  | opSwitch n sel =>
    have hn : n ≠ 0 := by
      have := hv n (by simp [opTimes])
      omega
    exact storeInv_switch s n sel h hn

theorem storeInv_empty : StoreInv emptyStore := by
  refine ⟨List.nodup_nil, ?_, ?_, ?_⟩
  · intro t ht
    exact absurd ht (List.not_mem_nil t)
  · decide
  · intro t ht
    exact absurd ht (List.not_mem_nil t)

theorem storeInv_runOps (ops : List Op) : ∀ (s : Store), StoreInv s →
    (∀ op ∈ ops, OpValid op) → StoreInv (runOps s ops) := by
  induction ops with
  | nil =>
    intro s h _
    exact h
  | cons op ops ih =>
    intro s h hv
    exact ih (applyOp s op) (storeInv_applyOp s op h (hv op (List.mem_cons_self op ops)))
      (fun o ho => hv o (List.mem_cons_of_mem op ho))

/-- C1: starting from the empty store, after any sequence of Start, Stop,
Pause, Resume and Switch invocations (with their wall-clock reads positive,
as `Local::now().timestamp()` is), the active set contains at most one
record with `state = "running"`. -/
theorem at_most_one_running (ops : List Op) (hv : ∀ op ∈ ops, OpValid op) :
    countRunning (runOps emptyStore ops) ≤ 1 :=
  (storeInv_runOps ops emptyStore storeInv_empty hv).2.2.1

/-- Witness for C1: a six-operation sequence exercising every operation. -/
theorem at_most_one_running_witness :
    countRunning (runOps emptyStore
      [Op.opStart 1 2 true 0 "a" "b", .opPause 3, .opStart 4 5 true 0 "c" "d",
       .opSwitch 6 0, .opResume 7 0, .opStop 8 false]) ≤ 1 :=
  at_most_one_running _ (by
    intro op hop
    fin_cases hop <;> (intro n hn; fin_cases hn <;> norm_num))

/-- C10: every operation sequence from the empty store (with positive
wall-clock reads) preserves the per-timer linkage of `state` to `breaks`:
a running timer has no open break, and a paused timer's breaks are all
closed except the last, which is open (exactly one open break, in last
position). -/
theorem state_breaks_linkage (ops : List Op) (hv : ∀ op ∈ ops, OpValid op) :
    ∀ t ∈ (runOps emptyStore ops).timers,
      (t.state = "running" → RunningBreaks t.breaks)
      ∧ (t.state = "paused" → PausedBreaks t.breaks) := by
  intro t ht
  have h := (storeInv_runOps ops emptyStore storeInv_empty hv).2.2.2 t ht
  exact ⟨h.2.1, h.2.2⟩

/-- Witness for C10: after start, pause, start, the first timer of the
resulting store is paused with exactly its one open break in last
position. -/
theorem state_breaks_linkage_witness :
    ((⟨1, "a", "b", 2, "paused", [⟨3, 0⟩], none⟩ : ActiveTimer).state = "running"
      → RunningBreaks [⟨3, 0⟩])
    ∧ ((⟨1, "a", "b", 2, "paused", [⟨3, 0⟩], none⟩ : ActiveTimer).state = "paused"
      → PausedBreaks [⟨3, 0⟩]) :=
  state_breaks_linkage
    [Op.opStart 1 2 true 0 "a" "b", .opPause 3, .opStart 4 5 true 0 "c" "d"]
    (by
      intro op hop
      fin_cases hop <;> (intro n hn; fin_cases hn <;> norm_num))
    ⟨1, "a", "b", 2, "paused", [⟨3, 0⟩], none⟩ (by decide)

end TimeLogging
